import Mathlib

/-!
Verification of the tr-drive repeat-time control core against its
natural-language specification.

The development shallowly embeds the relevant Python functions:

* `calc_and_output_odom` — `WebotsROSAckermannActuator.calc_and_output_odom`
  (odometry integration of an Ackermann velocity/radius command);
* `ackermann_vw` / `R_min_abs` — the `'vw'` command branch of
  `WebotsROSAckermannActuator.run` and the derived minimum turning radius;
* `suppressScanValues` / `delta_p_distance` — the correlation-score
  suppression and weighted along-path average of
  `BaselineRepeatController.run`;
* `updatedRotationFactor` / `updatedTranslationFactor` — the EMA
  correction-factor update of `BaselineRepeatController.pass_to_next_goal`;
* `updateGoalDistances` — the cumulative-distance update of
  `BaselineRepeatController.pass_to_next_goal`;
* `controlLoop` / `advanceTrace` — the termination check and the
  `passed_goal` port writes of `BaselineRepeatController`;
* `FP` and the steering pipeline — an exact-real model of the IEEE
  float values (finite / signed infinity / NaN) flowing through the
  steering computation of `BaselineRepeatController.run`;
* `Frame.from_Pose` — the quaternion validation fallback of
  `tr_drive.util.geometry`.

Machine floats are modelled by exact reals (rationals where no
transcendental function occurs); IEEE special values are modelled
explicitly by `FP` where they are produced and consumed.
-/

/-! ## Ackermann odometry integration (C1) -/

/-- The rotation matrix `t3d.euler.euler2mat 0 0 θ`: a rotation by `θ`
about the z axis. -/
noncomputable def Rz (θ : ℝ) : Matrix (Fin 3) (Fin 3) ℝ :=
  Matrix.of ![![Real.cos θ, -Real.sin θ, 0],
              ![Real.sin θ, Real.cos θ, 0],
              ![0, 0, 1]]

/-- The mutable 4x4 homogeneous transform `self.odom` of the actuator,
modelled by its rotation block `odom[:3, :3]` (the source reads it with
`t3d_ext.edR`) and its translation column `odom[:3, 3]`; the constant
bottom row is omitted. -/
structure SE3 where
  rot : Matrix (Fin 3) (Fin 3) ℝ
  trans : Fin 3 → ℝ

/-- `WebotsROSAckermannActuator.calc_and_output_odom`: integrate the pose
by time step `dt` at linear velocity `v` and turning radius `R`
(`R > 1e9` encodes the straight-line case `float('inf')`). -/
noncomputable def calc_and_output_odom (odom : SE3) (v R dt : ℝ) : SE3 :=
  let dist := v * dt
  let odom_R := odom.rot
  if R > 1e9 then
    { odom with trans := odom.trans + odom_R.mulVec ![dist, 0, 0] }
  else
    let theta := dist / R
    let rot := Rz theta
    let PR := odom_R.mulVec ![0, R, 0]
    let RT := -(rot.mulVec PR)
    { rot := rot * odom_R, trans := odom.trans + (PR + RT) }

/-- Claim C1: for every pose, linear velocity `v`, radius `R` and step `dt`,
if `R > 1e9` (effectively infinite) the integration translates along the
current heading by `v·dt` with the rotation unchanged; otherwise it applies
`θ = v·dt / R` about the instantaneous center of rotation: the new rotation
is `Rz θ * old_rot` and the new translation is
`old_trans + PR - Rz θ * PR` with `PR = old_rot * (0, R, 0)`. -/
theorem C1_ackermann_odometry_integration (odom : SE3) (v R dt : ℝ) :
    (R > 1e9 →
      calc_and_output_odom odom v R dt =
        { rot := odom.rot,
          trans := odom.trans + odom.rot.mulVec ![v * dt, 0, 0] }) ∧
    (¬ R > 1e9 →
      calc_and_output_odom odom v R dt =
        { rot := Rz (v * dt / R) * odom.rot,
          trans := odom.trans + odom.rot.mulVec ![0, R, 0]
                   - (Rz (v * dt / R)).mulVec (odom.rot.mulVec ![0, R, 0]) }) := by
  constructor <;> intro h
  · simp [calc_and_output_odom, h]
  · simp only [calc_and_output_odom, if_neg h]
    congr 1
    abel

/-- Witness for C1: both branches evaluated at the identity pose, discharging
the branch hypotheses at the concrete radii `2e9` (straight) and `1` (turn). -/
theorem C1_ackermann_odometry_integration_witness :
    ((2e9 : ℝ) > 1e9 ∧
      calc_and_output_odom ⟨1, 0⟩ 1 2e9 1 =
        { rot := (1 : Matrix (Fin 3) (Fin 3) ℝ),
          trans := (0 : Fin 3 → ℝ) + (1 : Matrix (Fin 3) (Fin 3) ℝ).mulVec ![1 * 1, 0, 0] }) ∧
    (¬ (1 : ℝ) > 1e9 ∧
      calc_and_output_odom ⟨1, 0⟩ 1 1 1 =
        { rot := Rz (1 * 1 / 1) * (1 : Matrix (Fin 3) (Fin 3) ℝ),
          trans := (0 : Fin 3 → ℝ) + (1 : Matrix (Fin 3) (Fin 3) ℝ).mulVec ![0, 1, 0]
                   - (Rz (1 * 1 / 1)).mulVec
                       ((1 : Matrix (Fin 3) (Fin 3) ℝ).mulVec ![0, 1, 0]) }) :=
  ⟨⟨by norm_num, (C1_ackermann_odometry_integration ⟨1, 0⟩ 1 2e9 1).1 (by norm_num)⟩,
   ⟨by norm_num, (C1_ackermann_odometry_integration ⟨1, 0⟩ 1 1 1).2 (by norm_num)⟩⟩

/-! ## Ackermann command mapping (C2) -/

/-- `self.R_min_abs = self.d / np.tan(self.max_phi) + self.l / 2`
(`WebotsROSAckermannActuator.__init__`): the derived minimum turning
radius from track width, wheelbase and maximum steering angle. -/
noncomputable def R_min_abs (track wheelbase max_phi : ℝ) : ℝ :=
  wheelbase / Real.tan max_phi + track / 2

/-- The three actuator setpoints computed by
`WebotsROSAckermannActuator.run`: the two front steering angles and the
rear wheel angular velocity. -/
structure WheelSetpoints where
  phi_l : ℝ
  phi_r : ℝ
  w_rear : ℝ

/-- The `'vw'` command branch of `WebotsROSAckermannActuator.run`:
derive the turning radius `R = v / w` (infinite when `|w| < 1e-3`), clamp
`|R|` against `R_min` (sign from `sign(v + 1e-3) * sign(w + 1e-3)`), then
`phi_l = atan(d / (R + l/2))`, `phi_r = atan(d / (R - l/2))`,
`w_rear = v / r`.  In the infinite-radius branch the clamp test
`|inf| < |R_min|` is false and `d / (inf ± l/2)` is `0`, so both steering
angles collapse to `atan 0`. -/
noncomputable def ackermann_vw (track wheelbase wheel_radius max_phi v w : ℝ) :
    WheelSetpoints :=
  let sgn := Real.sign (v + 1e-3) * Real.sign (w + 1e-3)
  let R_min := sgn * R_min_abs track wheelbase max_phi
  if |w| < 1e-3 then
    ⟨Real.arctan 0, Real.arctan 0, v / wheel_radius⟩
  else
    let R0 := v / w
    let R := if |R0| < |R_min| then R_min else R0
    ⟨Real.arctan (wheelbase / (R + track / 2)),
     Real.arctan (wheelbase / (R - track / 2)),
     v / wheel_radius⟩

lemma sin_03_bounds : 0.295078125 ≤ Real.sin 0.3 ∧ Real.sin 0.3 ≤ 0.295921875 := by
  have habs : |(0.3 : ℝ)| = 0.3 := abs_of_pos (by norm_num)
  have h := Real.sin_bound (x := 0.3) (by rw [habs]; norm_num)
  rw [habs] at h
  have h1 := (abs_le.mp h).1
  have h2 := (abs_le.mp h).2
  constructor <;> nlinarith

lemma cos_03_bounds : 0.954578125 ≤ Real.cos 0.3 ∧ Real.cos 0.3 ≤ 0.955421875 := by
  have habs : |(0.3 : ℝ)| = 0.3 := abs_of_pos (by norm_num)
  have h := Real.cos_bound (x := 0.3) (by rw [habs]; norm_num)
  rw [habs] at h
  have h1 := (abs_le.mp h).1
  have h2 := (abs_le.mp h).2
  constructor <;> nlinarith

lemma sin_06_bounds : 0.5633 ≤ Real.sin 0.6 ∧ Real.sin 0.6 ≤ 0.5655 := by
  have hs := sin_03_bounds
  have hc := cos_03_bounds
  rw [show (0.6 : ℝ) = 2 * 0.3 by norm_num, Real.sin_two_mul]
  constructor <;> nlinarith [hs.1, hs.2, hc.1, hc.2]

lemma cos_06_bounds : 0.8248 ≤ Real.cos 0.6 ∧ Real.cos 0.6 ≤ 0.8259 := by
  have hs := sin_03_bounds
  have hpy := Real.sin_sq_add_cos_sq 0.3
  rw [show (0.6 : ℝ) = 2 * 0.3 by norm_num, Real.cos_two_mul']
  constructor <;> nlinarith [hs.1, hs.2, hpy]

lemma tan_06_bounds : 0.682 ≤ Real.tan 0.6 ∧ Real.tan 0.6 ≤ 0.6857 := by
  have hs := sin_06_bounds
  have hc := cos_06_bounds
  have hcpos : (0 : ℝ) < Real.cos 0.6 := by linarith [hc.1]
  rw [Real.tan_eq_sin_div_cos]
  constructor
  · rw [le_div_iff₀ hcpos]
    nlinarith [hc.2, hs.1]
  · rw [div_le_iff₀ hcpos]
    nlinarith [hc.1, hs.2]

lemma R_min_abs_scenario_bounds :
    1.4166 ≤ R_min_abs 0.5 0.8 0.6 ∧ R_min_abs 0.5 0.8 0.6 ≤ 1.4231 := by
  have ht := tan_06_bounds
  have htpos : (0 : ℝ) < Real.tan 0.6 := by linarith [ht.1]
  unfold R_min_abs
  constructor
  · have : (0.8 : ℝ) / Real.tan 0.6 ≥ 0.8 / 0.6857 := by
      apply div_le_div_of_nonneg_left (by norm_num) htpos ht.2
    nlinarith
  · have : (0.8 : ℝ) / Real.tan 0.6 ≤ 0.8 / 0.682 := by
      apply div_le_div_of_nonneg_left (by norm_num) (by norm_num) ht.1
    nlinarith

/-- Counterexample for claim C2: with track `0.5`, wheelbase `0.8` and
maximum steering angle `0.6 rad`, the derived minimum turning radius
`0.8 / tan 0.6 + 0.25` is smaller than `1.439` by more than `0.015`, so
it is not approximately `1.439` at the claim's three-decimal precision
(it is `≈ 1.419`). -/
theorem C2_min_turn_radius_not_1439 :
    0.015 < 1.439 - R_min_abs 0.5 0.8 0.6 := by
  have h := R_min_abs_scenario_bounds
  linarith [h.2]

/-- Claim C2 (amended): with track `0.5`, wheelbase `0.8`, wheel radius
`0.15`, maximum steering angle `0.6 rad`, the derived minimum turning
radius is `≈ 1.419` (within `0.005`; not `1.439`); the command
`('vw', 1.0, 2.0)` yields raw radius `R = 0.5`, clamped sign-preserved to
the minimum turning radius, with `phi_left = atan(0.8/(R_min + 0.25))`,
`phi_right = atan(0.8/(R_min - 0.25))` and rear wheel angular velocity
`1.0 / 0.15 ≈ 6.667`. -/
theorem C2_end_to_end_scenario :
    1.4166 ≤ R_min_abs 0.5 0.8 0.6 ∧ R_min_abs 0.5 0.8 0.6 ≤ 1.4231 ∧
    |R_min_abs 0.5 0.8 0.6 - 1.419| < 0.005 ∧
    ackermann_vw 0.5 0.8 0.15 0.6 1 2 =
      ⟨Real.arctan (0.8 / (R_min_abs 0.5 0.8 0.6 + 0.25)),
       Real.arctan (0.8 / (R_min_abs 0.5 0.8 0.6 - 0.25)),
       1 / 0.15⟩ ∧
    |1 / 0.15 - (6.667 : ℝ)| < 0.01 := by
  have hb := R_min_abs_scenario_bounds
  have hsgn : Real.sign ((1 : ℝ) + 1e-3) * Real.sign ((2 : ℝ) + 1e-3) = 1 := by
    rw [Real.sign_of_pos (by norm_num), Real.sign_of_pos (by norm_num)]
    norm_num
  refine ⟨hb.1, hb.2, ?_, ?_, ?_⟩
  · rw [abs_lt]; constructor <;> linarith [hb.1, hb.2]
  · unfold ackermann_vw
    rw [if_neg (by norm_num)]
    simp only [hsgn, one_mul]
    rw [if_pos]
    · norm_num
    · rw [abs_of_pos (by norm_num : (0 : ℝ) < 1 / 2),
        abs_of_pos (by linarith [hb.1] : (0 : ℝ) < R_min_abs 0.5 0.8 0.6)]
      linarith [hb.1]
  · rw [abs_lt]; constructor <;> norm_num

/-! ## Correlation-score suppression and along-path average (C3, C7) -/

/-- numpy `.max()` over an array of correlation scores (floats, modelled
exactly on `ℚ`); `none` models the `ValueError` numpy raises when the
reduction is over an empty array. -/
def npMax (l : List ℚ) : Option ℚ := l.max?

/-- The "Approach 2" suppression line of `BaselineRepeatController.run`:
`scan_values[scan_values < scan_values[scan_values != scan_values.max()].max()] = 0`
— every entry strictly below the maximum of the entries differing from the
global maximum is replaced by `0`.  `none` when a `.max()` reduction is
empty (all entries equal the global maximum). -/
def suppressScanValues (l : List ℚ) : Option (List ℚ) :=
  (npMax l).bind (fun m =>
    (npMax (l.filter (fun x => x ≠ m))).bind (fun m2 =>
      some (l.map (fun x => if x < m2 then 0 else x))))

/-- `delta_p_distance = scan_values / scan_values.sum() @ scan_distances`
after suppression (`BaselineRepeatController.run`); `none` when the
suppression failed or the suppressed scores sum to zero (a float division
by zero: the code has no zero fallback). -/
def delta_p_distance (values distances : List ℚ) : Option ℚ :=
  (suppressScanValues values).bind (fun vs =>
    if vs.sum = 0 then none
    else some ((List.zipWith (fun a d => a / vs.sum * d) vs distances).sum))

lemma rat_max?_eq_some_iff {xs : List ℚ} {a : ℚ} :
    xs.max? = some a ↔ a ∈ xs ∧ ∀ b ∈ xs, b ≤ a := by
  have : Std.Antisymm ((· : ℚ) ≤ ·) := ⟨fun h h' => le_antisymm h h'⟩
  exact List.max?_eq_some_iff (fun a => le_refl a) (fun a b => max_choice a b)
    (fun a b c => max_le_iff)

lemma suppress_eq_of {l : List ℚ} {m m2 : ℚ} (h : npMax l = some m)
    (h2 : npMax (l.filter (fun x => x ≠ m)) = some m2) :
    suppressScanValues l = some (l.map (fun x => if x < m2 then 0 else x)) := by
  unfold suppressScanValues
  rw [h, Option.some_bind, h2, Option.some_bind]

/-- Claim C3: for every score vector with at least two distinct values, the
suppression replaces every score strictly below the second-highest distinct
value `m2` (the maximum of the scores differing from the global maximum `m`)
with `0` and keeps every score tied with or exceeding `m2` unchanged; the
global maximum satisfies `m2 < m`, so it is kept. -/
theorem C3_score_suppression (l : List ℚ) (a b : ℚ)
    (ha : a ∈ l) (hb : b ∈ l) (hab : a ≠ b) :
    ∃ m m2, npMax l = some m ∧ npMax (l.filter (fun x => x ≠ m)) = some m2 ∧
      m2 < m ∧
      suppressScanValues l = some (l.map (fun x => if x < m2 then 0 else x)) ∧
      (∀ x : ℚ, x < m2 → (if x < m2 then (0 : ℚ) else x) = 0) ∧
      (∀ x : ℚ, m2 ≤ x → (if x < m2 then (0 : ℚ) else x) = x) := by
  obtain ⟨m, hm⟩ : ∃ m, npMax l = some m := by
    cases h : l.max? with
    | none => exact absurd (List.max?_eq_none_iff.mp h ▸ ha) (List.not_mem_nil a)
    | some m => exact ⟨m, h⟩
  have hmspec := rat_max?_eq_some_iff.mp hm
  have hex : ∃ c, c ∈ l ∧ c ≠ m := by
    by_cases hca : a = m
    · exact ⟨b, hb, fun hbm => hab (hca ▸ hbm ▸ rfl)⟩
    · exact ⟨a, ha, hca⟩
  obtain ⟨c, hcl, hcm⟩ := hex
  have hcf : c ∈ l.filter (fun x => x ≠ m) := by
    rw [List.mem_filter]
    exact ⟨hcl, by simpa using hcm⟩
  obtain ⟨m2, hm2⟩ : ∃ m2, npMax (l.filter (fun x => x ≠ m)) = some m2 := by
    cases h : (l.filter (fun x => x ≠ m)).max? with
    | none => exact absurd (List.max?_eq_none_iff.mp h ▸ hcf) (List.not_mem_nil c)
    | some m2 => exact ⟨m2, h⟩
  have hm2spec := rat_max?_eq_some_iff.mp hm2
  have hm2l : m2 ∈ l ∧ m2 ≠ m := by
    have := hm2spec.1
    rw [List.mem_filter] at this
    exact ⟨this.1, by simpa using this.2⟩
  refine ⟨m, m2, hm, hm2, lt_of_le_of_ne (hmspec.2 m2 hm2l.1) hm2l.2,
    suppress_eq_of hm hm2, fun x hx => if_pos hx, fun x hx => if_neg (not_lt.mpr hx)⟩

/-- Witness for C3: the scores `[1, 3, 2]` hold the two distinct values `1`
and `3`; the suppression keeps `3` and `2` and zeroes `1` (`m = 3`,
`m2 = 2`). -/
theorem C3_score_suppression_witness :
    (1 : ℚ) ∈ [(1 : ℚ), 3, 2] ∧ (3 : ℚ) ∈ [(1 : ℚ), 3, 2] ∧ (1 : ℚ) ≠ 3 ∧
    suppressScanValues [(1 : ℚ), 3, 2] = some [0, 3, 2] ∧
    (∃ m m2, npMax [(1 : ℚ), 3, 2] = some m ∧
      npMax ([(1 : ℚ), 3, 2].filter (fun x => x ≠ m)) = some m2 ∧ m2 < m ∧
      suppressScanValues [(1 : ℚ), 3, 2] =
        some ([(1 : ℚ), 3, 2].map (fun x => if x < m2 then 0 else x)) ∧
      (∀ x : ℚ, x < m2 → (if x < m2 then (0 : ℚ) else x) = 0) ∧
      (∀ x : ℚ, m2 ≤ x → (if x < m2 then (0 : ℚ) else x) = x)) :=
  ⟨by decide, by decide, by decide, by decide,
    C3_score_suppression [(1 : ℚ), 3, 2] 1 3 (by decide) (by decide) (by decide)⟩

/-- Counterexample for claim C7: a scan whose scores all collapse to one
value does not yield a zero correction — the suppression step fails (the
`.max()` of the empty selection of values differing from the global maximum
raises in numpy), so the along-path average is not computed at all. -/
theorem C7_all_equal_scores_fail :
    delta_p_distance [1, 1, 1] [0, 1, 2] = none ∧
    delta_p_distance [1, 1, 1] [0, 1, 2] ≠ some 0 := by
  decide

/-- Claim C7 (amended): degenerate correlation scans are not handled by a
zero fallback — when all scanned scores are equal the suppression step fails
(empty `.max()` reduction), and when the post-suppression scores sum to zero
the weighted average is a division by zero; in both cases the along-path
contribution is undefined rather than zero. -/
theorem C7_degenerate_scans_unhandled :
    (∀ (c : ℚ) (n : ℕ), 1 ≤ n → suppressScanValues (List.replicate n c) = none) ∧
    (∀ values distances vs, suppressScanValues values = some vs → vs.sum = 0 →
      delta_p_distance values distances = none) := by
  constructor
  · intro c n hn
    have hmax : (List.replicate n c).max? = some c :=
      List.max?_replicate_of_pos (max_self c) hn
    have hfil : (List.replicate n c).filter (fun x => x ≠ c) = [] := by
      rw [List.filter_eq_nil_iff]
      intro x hx
      simp [List.eq_of_mem_replicate hx]
    unfold suppressScanValues npMax
    rw [hmax, Option.some_bind, hfil]
    rfl
  · intro values distances vs h hsum
    unfold delta_p_distance
    rw [h, Option.some_bind, if_pos hsum]

/-- Witness for C7 (amended): all-equal scores `[1, 1, 1]` make the
suppression fail, and the mixed-sign scores `[-1, 1]` survive suppression
with sum `0`, making the weighted average undefined. -/
theorem C7_degenerate_scans_unhandled_witness :
    (1 ≤ 3 ∧ suppressScanValues (List.replicate 3 (1 : ℚ)) = none) ∧
    (suppressScanValues [(-1 : ℚ), 1] = some [(-1 : ℚ), 1] ∧
      [(-1 : ℚ), 1].sum = 0 ∧ delta_p_distance [(-1 : ℚ), 1] [5, 7] = none) := by
  have hsum : [(-1 : ℚ), 1].sum = 0 := by norm_num
  exact ⟨⟨by decide, C7_degenerate_scans_unhandled.1 1 3 (by decide)⟩,
    ⟨by decide, hsum,
     C7_degenerate_scans_unhandled.2 [(-1 : ℚ), 1] [5, 7] [(-1 : ℚ), 1]
       (by decide) hsum⟩⟩

/-! ## EMA correction-factor update (C4) -/

/-- The rotation-factor update of `BaselineRepeatController.pass_to_next_goal`:
the sample is `measured / recorded` when `abs(recorded)` exceeds the
threshold and the old factor otherwise, then an EMA step
`rate * sample + (1 - rate) * old`. -/
noncomputable def updatedRotationFactor (rate threshold recorded measured oldF : ℝ) : ℝ :=
  let sample := if |recorded| > threshold then measured / recorded else oldF
  rate * sample + (1 - rate) * oldF

/-- The translation-factor update of
`BaselineRepeatController.pass_to_next_goal`: as the rotation update, but
the guard compares `recorded` (a norm, already non-negative) to the
threshold without `abs`. -/
noncomputable def updatedTranslationFactor (rate threshold recorded measured oldF : ℝ) : ℝ :=
  let sample := if recorded > threshold then measured / recorded else oldF
  rate * sample + (1 - rate) * oldF

/-- Claim C4: on a correction-factor update, if the recorded anchor-to-anchor
rotation magnitude does not exceed the rotation threshold the rotation
factor is unchanged (the EMA with the old value as sample is a fixed point),
and likewise for the translation factor and its threshold. -/
theorem C4_ema_fixed_point
    (rateR rateT thrR thrT recR recT mR mT oldR oldT : ℝ) :
    (|recR| ≤ thrR → updatedRotationFactor rateR thrR recR mR oldR = oldR) ∧
    (recT ≤ thrT → updatedTranslationFactor rateT thrT recT mT oldT = oldT) := by
  constructor <;> intro h
  · unfold updatedRotationFactor
    rw [if_neg (not_lt.mpr h)]
    ring
  · unfold updatedTranslationFactor
    rw [if_neg (not_lt.mpr h)]
    ring

/-- Witness for C4: recorded magnitudes `0.05` below the thresholds `0.1`
carry the factors `3` over unchanged through the EMA update with rate `0.5`. -/
theorem C4_ema_fixed_point_witness :
    (|(0.05 : ℝ)| ≤ 0.1 ∧ updatedRotationFactor 0.5 0.1 0.05 2 3 = 3) ∧
    ((0.05 : ℝ) ≤ 0.1 ∧ updatedTranslationFactor 0.5 0.1 0.05 2 3 = 3) := by
  have habs : |(0.05 : ℝ)| ≤ 0.1 := by
    rw [abs_of_pos (by norm_num : (0 : ℝ) < 0.05)]
    norm_num
  exact ⟨⟨habs, (C4_ema_fixed_point 0.5 0.5 0.1 0.1 0.05 0.05 2 2 3 3).1 habs⟩,
    ⟨by norm_num, (C4_ema_fixed_point 0.5 0.5 0.1 0.1 0.05 0.05 2 2 3 3).2 (by norm_num)⟩⟩

/-! ## Cumulative goal distances (C5) -/

/-- A recorded odometry pose as stored in the window queue: a raw 4x4
homogeneous transform. -/
abbrev Mat4 := Matrix (Fin 4) (Fin 4) ℝ

/-- Modelled from the spec: `t3d_ext.edt` (`pf_drive.util.t3d_ext` is not
among the sources) — the pose-algebra capability extracting the translation
column `M[:3, 3]` of a 4x4 transform ("translation-difference-of"). -/
def edt (M : Mat4) : Fin 3 → ℝ := fun i => M i.castSucc 3

/-- Modelled from the spec: `t3d_ext.norm` — the Euclidean norm of a
translation vector ("translation-norm-of"). -/
noncomputable def vnorm (v : Fin 3 → ℝ) : ℝ := Real.sqrt (∑ i, v i ^ 2)

/-- The `goal_distances` update of `BaselineRepeatController.pass_to_next_goal`
(lines 122-125): when the two newest window entries `q[-2]`, `q[-1]` are both
present, append the previous last element plus
`norm(edt(q[-1][1] - q[-2][1]))`; otherwise leave the list unchanged
(`goal_distances` starts as `[0.0]`, so indexing `[-1]` always hits the
last element, modelled by `getLastD`). -/
noncomputable def updateGoalDistances (ds : List ℝ) (qm2 qm1 : Option Mat4) : List ℝ :=
  match qm2, qm1 with
  | some a, some b => ds ++ [ds.getLastD 0 + vnorm (edt (b - a))]
  | _, _ => ds

/-- The `goal_distances` list after any sequence of advances, each advance
supplying the pair of newest window entries it observes; the list starts as
`[0.0]`. -/
noncomputable def goalDistancesAfter (steps : List (Option Mat4 × Option Mat4)) : List ℝ :=
  steps.foldl (fun ds p => updateGoalDistances ds p.1 p.2) [0]

lemma updateGoalDistances_preserves (ds : List ℝ) (a b : Option Mat4)
    (h : ds ≠ [] ∧ ds.head? = some 0 ∧ List.Chain' (· ≤ ·) ds) :
    updateGoalDistances ds a b ≠ [] ∧
      (updateGoalDistances ds a b).head? = some 0 ∧
      List.Chain' (· ≤ ·) (updateGoalDistances ds a b) := by
  obtain ⟨hne, hhead, hchain⟩ := h
  cases a with
  | none => exact ⟨hne, hhead, hchain⟩
  | some a =>
    cases b with
    | none => exact ⟨hne, hhead, hchain⟩
    | some b =>
      simp only [updateGoalDistances]
      refine ⟨by simp, ?_, ?_⟩
      · cases ds with
        | nil => exact absurd rfl hne
        | cons d ds0 => simpa using hhead
      · rw [List.chain'_append]
        refine ⟨hchain, List.chain'_singleton _, ?_⟩
        intro x hx y hy
        have hxl : ds.getLastD 0 = x := by
          rw [List.getLastD_eq_getLast?, Option.mem_def.mp hx]
          rfl
        have hyv : y = ds.getLastD 0 + vnorm (edt (b - a)) := by
          have := Option.mem_def.mp hy
          simp only [List.head?_cons, Option.some_inj] at this
          simp [List.getLastD_eq_getLast?, this.symm]
        rw [hyv, ← hxl]
        have := Real.sqrt_nonneg (∑ i, (edt (b - a)) i ^ 2)
        simp only [vnorm]
        linarith

lemma goalDistancesAfter_invariant (steps : List (Option Mat4 × Option Mat4)) :
    ∀ ds : List ℝ, ds ≠ [] ∧ ds.head? = some 0 ∧ List.Chain' (· ≤ ·) ds →
      (steps.foldl (fun ds p => updateGoalDistances ds p.1 p.2) ds) ≠ [] ∧
      (steps.foldl (fun ds p => updateGoalDistances ds p.1 p.2) ds).head? = some 0 ∧
      List.Chain' (· ≤ ·) (steps.foldl (fun ds p => updateGoalDistances ds p.1 p.2) ds) := by
  induction steps with
  | nil => intro ds h; simpa using h
  | cons p rest ih =>
    intro ds h
    simpa using ih (updateGoalDistances ds p.1 p.2)
      (updateGoalDistances_preserves ds p.1 p.2 h)

/-- Claim C5: for every sequence of advances the tracker's cumulative
distance list starts at `[0.0]`, every appended element is the previous
last element plus the non-negative norm of the translation delta between
the two newest window entries, and the list stays monotonically
non-decreasing with first element `0`. -/
theorem C5_goal_distances_monotone (steps : List (Option Mat4 × Option Mat4)) :
    goalDistancesAfter [] = [0] ∧
    (goalDistancesAfter steps).head? = some 0 ∧
    List.Chain' (· ≤ ·) (goalDistancesAfter steps) ∧
    ∀ (ds : List ℝ) (a b : Mat4),
      updateGoalDistances ds (some a) (some b) =
        ds ++ [ds.getLastD 0 + vnorm (edt (b - a))] ∧
      0 ≤ vnorm (edt (b - a)) := by
  have h := goalDistancesAfter_invariant steps [0]
    ⟨by simp, by simp, List.chain'_singleton _⟩
  exact ⟨rfl, h.2.1, h.2.2, fun ds a b =>
    ⟨rfl, Real.sqrt_nonneg _⟩⟩

/-! ## Quaternion validation fallback (C9) -/

/-- The quaternion component quadruple of a `geometry_msgs` orientation
(`Quat` of `tr_drive.util.geometry`). -/
structure QuatData where
  x : ℝ
  y : ℝ
  z : ℝ
  w : ℝ

/-- `Quat.norm`: `sqrt(x^2 + y^2 + z^2 + w^2)`. -/
noncomputable def quatNorm (q : QuatData) : ℝ :=
  Real.sqrt (q.x ^ 2 + q.y ^ 2 + q.z ^ 2 + q.w ^ 2)

/-- `Quat.validate`: `abs(self.norm() - 1) < 1e-6`. -/
def quatValidate (q : QuatData) : Prop := |quatNorm q - 1| < 1e-6

noncomputable instance (q : QuatData) : Decidable (quatValidate q) := by
  unfold quatValidate
  infer_instance

/-- A `geometry_msgs/Pose` message: a position and an orientation
quaternion. -/
structure PoseMsg where
  position : Fin 3 → ℝ
  orientation : QuatData

/-- The resulting `Frame`: a translation and a quaternion. -/
structure FrameData where
  translation : Fin 3 → ℝ
  quaternion : QuatData

/-- `Frame.from_Pose` of `tr_drive.util.geometry`, paired with the list of
warnings the function surfaces.  The orientation is replaced by the identity
quaternion when `validate()` fails (the `raise ValueError` is commented
out); the function performs no logging, so the warning list is empty in
both branches. -/
noncomputable def Frame.from_Pose (msg : PoseMsg) : FrameData × List String :=
  if quatValidate msg.orientation then (⟨msg.position, msg.orientation⟩, [])
  else (⟨msg.position, ⟨0, 0, 0, 1⟩⟩, [])

lemma quat_0002_invalid : ¬ quatValidate (⟨0, 0, 0, 2⟩ : QuatData) := by
  have hnorm : quatNorm ⟨0, 0, 0, 2⟩ = 2 := by
    simp only [quatNorm]
    rw [show (0 : ℝ) ^ 2 + 0 ^ 2 + 0 ^ 2 + 2 ^ 2 = 2 ^ 2 by norm_num]
    exact Real.sqrt_sq (by norm_num)
  unfold quatValidate
  rw [hnorm, show (2 : ℝ) - 1 = 1 by norm_num, abs_one]
  norm_num

lemma quat_0001_valid : quatValidate (⟨0, 0, 0, 1⟩ : QuatData) := by
  have hnorm : quatNorm ⟨0, 0, 0, 1⟩ = 1 := by
    simp only [quatNorm]
    rw [show (0 : ℝ) ^ 2 + 0 ^ 2 + 0 ^ 2 + 1 ^ 2 = 1 by norm_num]
    exact Real.sqrt_one
  unfold quatValidate
  rw [hnorm, sub_self, abs_zero]
  norm_num

/-- Counterexample for claim C9: at the invalid orientation `(0, 0, 0, 2)`
(norm `2`, off unity by far more than `1e-6`) the quaternion is replaced by
the identity, but no warning is surfaced — the function's warning output is
empty, contradicting the claimed warning. -/
theorem C9_no_warning_surfaced :
    (Frame.from_Pose ⟨0, ⟨0, 0, 0, 2⟩⟩).1.quaternion = ⟨0, 0, 0, 1⟩ ∧
    (Frame.from_Pose ⟨0, ⟨0, 0, 0, 2⟩⟩).2 = [] := by
  unfold Frame.from_Pose
  rw [if_neg quat_0002_invalid]
  exact ⟨rfl, rfl⟩

/-- Claim C9 (amended): for every incoming pose message, an orientation
whose norm is off unity by `1e-6` or more is replaced by the identity
quaternion `(0, 0, 0, 1)` rather than raised on or propagated, and a
quaternion passing the validity check is kept unchanged; the replacement is
silent — no warning is surfaced. -/
theorem C9_quaternion_validation_fallback (msg : PoseMsg) :
    (¬ quatValidate msg.orientation →
      Frame.from_Pose msg = (⟨msg.position, ⟨0, 0, 0, 1⟩⟩, [])) ∧
    (quatValidate msg.orientation →
      Frame.from_Pose msg = (⟨msg.position, msg.orientation⟩, [])) := by
  constructor <;> intro h <;> unfold Frame.from_Pose
  · rw [if_neg h]
  · rw [if_pos h]

/-- Witness for C9 (amended): the invalid orientation `(0, 0, 0, 2)` is
replaced by the identity with no warning, and the valid orientation
`(0, 0, 0, 1)` passes through unchanged. -/
theorem C9_quaternion_validation_fallback_witness :
    (¬ quatValidate (⟨0, 0, 0, 2⟩ : QuatData) ∧
      Frame.from_Pose ⟨0, ⟨0, 0, 0, 2⟩⟩ = (⟨0, ⟨0, 0, 0, 1⟩⟩, [])) ∧
    (quatValidate (⟨0, 0, 0, 1⟩ : QuatData) ∧
      Frame.from_Pose ⟨0, ⟨0, 0, 0, 1⟩⟩ = (⟨0, ⟨0, 0, 0, 1⟩⟩, [])) :=
  ⟨⟨quat_0002_invalid,
    (C9_quaternion_validation_fallback ⟨0, ⟨0, 0, 0, 2⟩⟩).1 quat_0002_invalid⟩,
   ⟨quat_0001_valid,
    (C9_quaternion_validation_fallback ⟨0, ⟨0, 0, 0, 1⟩⟩).2 quat_0001_valid⟩⟩

/-! ## Control-loop termination and progress writes (C6, C10) -/

/-- A value written to an output port of the repeat controller: a
`passed_goal` progress value (a goal index or the terminal `None` marker,
written `passedGoal none`) or an `actuator_command` payload of type `C`. -/
inductive PortWrite (C : Type) where
  | passedGoal : Option ℤ → PortWrite C
  | command : C → PortWrite C
deriving DecidableEq

/-- The loop state the termination check of `BaselineRepeatController.run`
reads: the window queue `self.q` (a `ListQueue` of optional `(image, odom)`
records, modelled from the spec as a list with the end-of-path marker
`none`) and the anchor offset `r = self.along_path_radius`. -/
structure LoopState (W : Type) where
  q : List (Option W)
  r : ℕ

/-- The main loop of `BaselineRepeatController.run`: each iteration first
checks `self.q[r] is not None and self.q[r + 1] is None`; when the check
fires it writes the terminal `None` to the `passed_goal` port and breaks,
otherwise the rest of the iteration (`body`, lines 171-352, abstracted)
runs and the loop continues.  The fuel argument models the external
shutdown of the `while not ros.is_shutdown()` loop. -/
def controlLoop {W C : Type} (body : LoopState W → LoopState W × List (PortWrite C)) :
    ℕ → LoopState W → List (PortWrite C)
  | 0, _ => []
  | n + 1, s =>
    if (s.q.getD s.r none).isSome && (s.q.getD (s.r + 1) none).isNone then
      [PortWrite.passedGoal none]
    else
      (body s).2 ++ controlLoop body n (body s).1

/-- Claim C6: in every iteration in which the window slot at the anchor
offset `r` holds a waypoint and slot `r + 1` holds the end-of-path marker,
the controller writes the terminal `None` marker to the `passed_goal` port
and exits the loop cleanly: whatever the loop body and the remaining fuel,
the session's remaining output is exactly that one terminal write. -/
theorem C6_path_exhaustion_terminates (W C : Type)
    (body : LoopState W → LoopState W × List (PortWrite C))
    (fuel : ℕ) (s : LoopState W)
    (h1 : (s.q.getD s.r none).isSome = true)
    (h2 : (s.q.getD (s.r + 1) none).isNone = true) :
    controlLoop body (fuel + 1) s = [PortWrite.passedGoal none] := by
  unfold controlLoop
  rw [h1, h2]
  rfl

/-- Witness for C6: a window whose anchor slot is populated and whose next
slot is the end marker makes the loop emit exactly the terminal `None`,
for a concrete body and fuel. -/
theorem C6_path_exhaustion_terminates_witness :
    ((([some (), none] : List (Option Unit)).getD 0 none).isSome = true ∧
     (([some (), none] : List (Option Unit)).getD (0 + 1) none).isNone = true) ∧
    controlLoop (C := Unit) (fun s => (s, [])) 3 ⟨[some (), none], 0⟩ =
      [PortWrite.passedGoal none] :=
  ⟨⟨by decide, by decide⟩,
   C6_path_exhaustion_terminates Unit Unit (fun s => (s, [])) 2
     ⟨[some (), none], 0⟩ (by decide) (by decide)⟩

/-- The `passed_goal` side of one `pass_to_next_goal` call
(`BaselineRepeatController.pass_to_next_goal`, lines 88-91):
`goal_idx += 1`, and the new index is written to the port only when it is
`>= 0`. -/
def passGoalAdvance (C : Type) (goal_idx : ℤ) : ℤ × List (PortWrite C) :=
  (goal_idx + 1,
    if 0 ≤ goal_idx + 1 then [PortWrite.passedGoal (some (goal_idx + 1))] else [])

/-- The `passed_goal` writes accumulated over `n` successive
`pass_to_next_goal` calls starting from goal index `g`. -/
def advanceTrace (C : Type) : ℤ → ℕ → List (PortWrite C)
  | _, 0 => []
  | g, n + 1 => (passGoalAdvance C g).2 ++ advanceTrace C (passGoalAdvance C g).1 n

lemma advanceTrace_emitting (C : Type) (n : ℕ) :
    ∀ g : ℤ, -1 ≤ g →
      advanceTrace C g n =
        (List.range n).map
          (fun j : ℕ => PortWrite.passedGoal (C := C) (some (g + 1 + (j : ℤ)))) := by
  induction n with
  | zero => intro g _; rfl
  | succ n ih =>
    intro g hg
    have h0 : (0 : ℤ) ≤ g + 1 := by linarith
    rw [advanceTrace]
    simp only [passGoalAdvance, if_pos h0]
    rw [ih (g + 1) (by linarith), List.range_succ_eq_map]
    simp only [List.map_cons, List.map_map, List.cons_append, List.nil_append]
    congr 1
    · norm_num
    · apply List.map_congr_left
      intro j _
      simp only [Function.comp_apply]
      congr 2
      push_cast
      ring

lemma advanceTrace_from_warmup (C : Type) (m : ℕ) :
    ∀ n : ℕ, advanceTrace C (-(m : ℤ) - 1) n =
      (List.range (n - m)).map
        (fun j : ℕ => PortWrite.passedGoal (C := C) (some ((j : ℤ)))) := by
  induction m with
  | zero =>
    intro n
    rw [show (-((0 : ℕ) : ℤ) - 1) = -1 by norm_num,
      advanceTrace_emitting C n (-1) (by norm_num)]
    simp
  | succ m ih =>
    intro n
    cases n with
    | zero => simp [advanceTrace]
    | succ n =>
      rw [advanceTrace]
      have hneg : ¬ (0 : ℤ) ≤ (-((m + 1 : ℕ) : ℤ) - 1) + 1 := by push_cast; linarith
      simp only [passGoalAdvance, if_neg hneg, List.nil_append]
      rw [show (-((m + 1 : ℕ) : ℤ) - 1) + 1 = -(m : ℤ) - 1 by push_cast; ring,
        ih n, Nat.succ_sub_succ]

/-- Claim C10: starting from the warm-up index `-(max_rps) - 1`, `n`
advances write exactly the goal indices `0, 1, 2, ...` (one increment per
advance, written only once the index is non-negative), so every value the
advances write to the `passed_goal` port is a non-negative goal index and
negative warm-up indices are never emitted. -/
theorem C10_passed_goal_values (C : Type) (m n : ℕ) :
    advanceTrace C (-(m : ℤ) - 1) n =
      (List.range (n - m)).map
        (fun j : ℕ => PortWrite.passedGoal (C := C) (some ((j : ℤ)))) ∧
    ∀ e ∈ advanceTrace C (-(m : ℤ) - 1) n,
      ∃ k : ℤ, 0 ≤ k ∧ e = PortWrite.passedGoal (some k) := by
  refine ⟨advanceTrace_from_warmup C m n, ?_⟩
  intro e he
  rw [advanceTrace_from_warmup C m n] at he
  simp only [List.mem_map, List.mem_range] at he
  obtain ⟨j, _, rfl⟩ := he
  exact ⟨j, Int.natCast_nonneg j, rfl⟩

/-! ## Steering command emission (C8) -/

/-- An IEEE double as the steering computation of
`BaselineRepeatController.run` observes it: a finite value (exact real),
a signed infinity (`inf true` is `+inf`), or NaN.  Rounding is not
modelled; the special values and their propagation are. -/
inductive FP where
  | num : ℝ → FP
  | inf : Bool → FP
  | nan : FP

/-- numpy `np.isnan`. -/
def FP.isnan : FP → Bool
  | FP.nan => true
  | _ => false

/-- IEEE absolute value. -/
noncomputable def FP.abs : FP → FP
  | FP.num x => FP.num |x|
  | FP.inf _ => FP.inf true
  | FP.nan => FP.nan

/-- IEEE `<`: any comparison with NaN is false. -/
noncomputable def FP.lt : FP → FP → Bool
  | FP.num x, FP.num y => decide (x < y)
  | FP.num _, FP.inf s => s
  | FP.inf s, FP.num _ => !s
  | FP.inf s, FP.inf t => !s && t
  | _, _ => false

/-- IEEE addition (opposite infinities give NaN). -/
noncomputable def FP.add : FP → FP → FP
  | FP.num x, FP.num y => FP.num (x + y)
  | FP.num _, FP.inf s => FP.inf s
  | FP.inf s, FP.num _ => FP.inf s
  | FP.inf s, FP.inf t => if s = t then FP.inf s else FP.nan
  | _, _ => FP.nan

/-- IEEE multiplication (`0 * inf` is NaN). -/
noncomputable def FP.mul : FP → FP → FP
  | FP.num x, FP.num y => FP.num (x * y)
  | FP.num x, FP.inf s => if x = 0 then FP.nan else FP.inf (decide (0 < x) == s)
  | FP.inf s, FP.num y => if y = 0 then FP.nan else FP.inf (decide (0 < y) == s)
  | FP.inf s, FP.inf t => FP.inf (s == t)
  | _, _ => FP.nan

/-- IEEE division as numpy performs it: `x / 0` is a signed infinity for
`x ≠ 0` and NaN for `0 / 0`; a finite value over an infinity is `0`;
`inf / inf` is NaN. -/
noncomputable def FP.div : FP → FP → FP
  | FP.num x, FP.num y =>
    if y = 0 then (if x = 0 then FP.nan else FP.inf (decide (0 < x)))
    else FP.num (x / y)
  | FP.num _, FP.inf _ => FP.num 0
  | FP.inf s, FP.num y => FP.inf (s == decide (0 ≤ y))
  | FP.inf _, FP.inf _ => FP.nan
  | _, _ => FP.nan

/-- numpy `np.sign`. -/
noncomputable def FP.sign : FP → FP
  | FP.num x => FP.num (Real.sign x)
  | FP.inf s => FP.num (if s then 1 else -1)
  | FP.nan => FP.nan

/-- Lines 295-299 of `BaselineRepeatController.run` for one lookahead goal
at relative position `(x, y)`: the turning radius `R = d_square / 2 / y`
through that goal, with `|R|` clamped sign-preserved to at least `Rmin`
(the clamp mask `abs(R) < R_min_abs` is false on infinities and NaN, which
pass through unclamped). -/
noncomputable def steerRadius (Rmin x y : ℝ) : FP :=
  let R := FP.div (FP.div (FP.num (x ^ 2 + y ^ 2)) (FP.num 2)) (FP.num y)
  if (FP.abs R).lt (FP.num Rmin) then FP.mul (FP.sign R) (FP.num Rmin) else R

/-- Lines 301-302: the per-goal angular velocity `w = v_full / R`, with NaN
entries zeroed by `w[np.isnan(w)] = 0.0`. -/
noncomputable def steerW (vfull Rmin x y : ℝ) : FP :=
  let w := FP.div (FP.num vfull) (steerRadius Rmin x y)
  if w.isnan then FP.num 0 else w

/-- Lines 304-305: the raw weighted steering target
`weights_q @ w / np.sum(weights_q)` over the available lookahead goals. -/
noncomputable def wTargetRaw (vfull Rmin : ℝ) (goals : List (ℝ × ℝ))
    (weights_q : List ℝ) : FP :=
  let ws := goals.map (fun g => steerW vfull Rmin g.1 g.2)
  let dot := (List.zipWith (fun c wi => FP.mul (FP.num c) wi) weights_q ws).foldl
    FP.add (FP.num 0)
  FP.div dot (FP.num weights_q.sum)

/-- Lines 307-308: `if np.isnan(w_target): w_target = 0.0`. -/
noncomputable def wTargetChecked (vfull Rmin : ℝ) (goals : List (ℝ × ℝ))
    (weights_q : List ℝ) : FP :=
  let w := wTargetRaw vfull Rmin goals weights_q
  if w.isnan then FP.num 0 else w

/-- Lines 331-336: the speed target from the tightest upcoming curvature
radius (NaN when no valid curvature exists): full speed on NaN, otherwise
the `v_low`-floored exponential throttle (`np.exp` of the offset
`max(0, R_min - R_min_abs)`, which is `0` for an infinite radius and
`-max 0 (-inf) = 0` for a negative-infinite one).  Always finite. -/
noncomputable def vTarget (vfull vlow Rminabs : ℝ) (Rcurv : FP) : ℝ :=
  match Rcurv with
  | FP.nan => vfull
  | FP.num x => (1 - Real.exp (-(max 0 (x - Rminabs)))) * 0.75 * (vfull - vlow) + vlow
  | FP.inf true => (1 - 0) * 0.75 * (vfull - vlow) + vlow
  | FP.inf false => (1 - Real.exp (-0)) * 0.75 * (vfull - vlow) + vlow

/-- Lines 331-345: the `actuator_command` writes of the cycle's tail —
exactly one `('vw', v_target, w_target)` tuple, with `w_target` rescaled
by `v_target / v_full` when a curvature limit exists and the final
`if np.isnan(w_target): w_target = 0.0` guard applied before the write. -/
noncomputable def emittedCommands (vfull vlow Rminabs : ℝ) (goals : List (ℝ × ℝ))
    (weights_q : List ℝ) (Rcurv : FP) : List (String × ℝ × FP) :=
  let w1 := wTargetChecked vfull Rminabs goals weights_q
  let vt := vTarget vfull vlow Rminabs Rcurv
  let w2 := if Rcurv.isnan then w1
            else FP.div (FP.mul (FP.num vt) w1) (FP.num vfull)
  let w3 := if w2.isnan then FP.num 0 else w2
  [("vw", vt, w3)]

lemma FP.isnan_guard (w : FP) : (if w.isnan then FP.num 0 else w).isnan = false := by
  cases w <;> simp [FP.isnan]

lemma emitted_w_of_raw_nan (vfull vlow Rminabs : ℝ) (goals : List (ℝ × ℝ))
    (weights_q : List ℝ) (Rcurv : FP)
    (h : (wTargetRaw vfull Rminabs goals weights_q).isnan = true) :
    emittedCommands vfull vlow Rminabs goals weights_q Rcurv =
      [("vw", vTarget vfull vlow Rminabs Rcurv, FP.num 0)] := by
  have hw1 : wTargetChecked vfull Rminabs goals weights_q = FP.num 0 := by
    simp [wTargetChecked, h]
  unfold emittedCommands
  rw [hw1]
  cases Rcurv with
  | nan => simp [FP.isnan]
  | num r =>
    by_cases hv : vfull = 0
    · simp [FP.isnan, FP.mul, FP.div, hv, mul_zero]
    · simp [FP.isnan, FP.mul, FP.div, hv, mul_zero, zero_div]
  | inf s =>
    by_cases hv : vfull = 0
    · simp [FP.isnan, FP.mul, FP.div, hv, mul_zero]
    · simp [FP.isnan, FP.mul, FP.div, hv, mul_zero, zero_div]

lemma steerW_zero_lateral (vfull Rmin x : ℝ) : steerW vfull Rmin x 0 = FP.num 0 := by
  unfold steerW steerRadius
  by_cases hx : x = 0
  · simp [hx, FP.div, FP.abs, FP.lt, FP.isnan]
  · have hx2 : x ^ 2 + (0 : ℝ) ^ 2 ≠ 0 := by positivity
    have hx2' : (x ^ 2 + (0 : ℝ) ^ 2) / 2 ≠ 0 := by positivity
    simp only [FP.div, if_neg (two_ne_zero (α := ℝ)), if_pos rfl, if_neg hx2']
    simp [FP.abs, FP.lt, FP.isnan]

/-- Claim C8: the cycle tail always writes exactly one `('vw', v, w)`
command; the written `w` is never NaN; whenever the weighted steering
average is NaN (empty weighted set, zero weight sum with zero numerator,
or NaN contributions) the written `w` is `0`; a goal with zero lateral
offset contributes `w = 0` (its radius is infinite or NaN); and the
empty lookahead set yields `w = 0`. -/
theorem C8_single_command_no_nan (vfull vlow Rminabs : ℝ) (goals : List (ℝ × ℝ))
    (weights_q : List ℝ) (Rcurv : FP) :
    (emittedCommands vfull vlow Rminabs goals weights_q Rcurv).length = 1 ∧
    (∀ e ∈ emittedCommands vfull vlow Rminabs goals weights_q Rcurv,
      e.1 = "vw" ∧ e.2.2.isnan = false) ∧
    ((wTargetRaw vfull Rminabs goals weights_q).isnan = true →
      ∀ e ∈ emittedCommands vfull vlow Rminabs goals weights_q Rcurv,
        e.2.2 = FP.num 0) ∧
    (∀ x : ℝ, steerW vfull Rminabs x 0 = FP.num 0) ∧
    (goals = [] → weights_q = [] →
      ∀ e ∈ emittedCommands vfull vlow Rminabs goals weights_q Rcurv,
        e.2.2 = FP.num 0) := by
  refine ⟨rfl, ?_, ?_, fun x => steerW_zero_lateral vfull Rminabs x, ?_⟩
  · intro e he
    unfold emittedCommands at he
    simp only [List.mem_singleton] at he
    subst he
    exact ⟨rfl, FP.isnan_guard _⟩
  · intro h e he
    rw [emitted_w_of_raw_nan vfull vlow Rminabs goals weights_q Rcurv h] at he
    simp only [List.mem_singleton] at he
    subst he
    rfl
  · intro hg hw e he
    subst hg
    subst hw
    have hraw : (wTargetRaw vfull Rminabs [] []).isnan = true := by
      unfold wTargetRaw
      simp [FP.div, FP.isnan]
    rw [emitted_w_of_raw_nan vfull vlow Rminabs [] [] Rcurv hraw] at he
    simp only [List.mem_singleton] at he
    subst he
    rfl

/-- Witness for C8: with reference velocity `1`, floor `0`, minimum radius
`1`, no lookahead goals, no weights and a NaN curvature stage, the weighted
average is NaN (`0 / 0`) and the single emitted command is
`('vw', 1, 0)` — angular velocity `0`, not NaN. -/
theorem C8_single_command_no_nan_witness :
    (wTargetRaw 1 1 [] []).isnan = true ∧
    ([] : List (ℝ × ℝ)) = [] ∧ ([] : List ℝ) = [] ∧
    (∀ e ∈ emittedCommands 1 0 1 [] [] FP.nan, e.2.2 = FP.num 0) ∧
    (∀ e ∈ emittedCommands 1 0 1 [] [] FP.nan,
      e.1 = "vw" ∧ e.2.2.isnan = false) ∧
    steerW 1 1 5 0 = FP.num 0 := by
  have hraw : (wTargetRaw 1 1 [] []).isnan = true := by
    unfold wTargetRaw
    simp [FP.div, FP.isnan]
  exact ⟨hraw, rfl, rfl,
    (C8_single_command_no_nan 1 0 1 [] [] FP.nan).2.2.1 hraw,
    (C8_single_command_no_nan 1 0 1 [] [] FP.nan).2.1,
    (C8_single_command_no_nan 1 0 1 [] [] FP.nan).2.2.2.1 5⟩
